import Mathlib

/-!
Verification of the bounded social-link crawler (`socialscraper.py`).

The development shallowly embeds the crawler's core: the URL-host model
(`urllib.parse.urlparse(...).netloc` for the cases the program exercises),
the social classifier `is_social_link`, the per-site crawl loop
`crawl_site`, and the batch orchestrator `process_websites`.

Network I/O is abstracted by a pure oracle `NetOracle` mapping a URL to
`none` (the `aiohttp` request raised) or `some (body, status)`.  HTML
parsing (`BeautifulSoup` + `urljoin` inside `extract_links_from_html`) is
abstracted by a pure oracle `ExtractOracle` mapping `(html, baseUrl)` to
the list of resolved links; the crawler is verified for every such oracle,
and the crawl state carries a ghost `trace` field recording each
`(fetched page URL, base URL passed to the extractor)` pair, so that
statements about which base URL the extractor receives can be made.

Python's `set.pop()` order is unspecified; the embedding determinises the
frontier as a duplicate-free list popped at the head.  No claim below
depends on the pop order.
-/

namespace SocialScraper

/-! ## Character-list string utilities (Python `str` operations) -/

/-- `isPrefixL pat s`: `pat` occurs at the start of `s`. -/
def isPrefixL : List Char → List Char → Bool
  | [], _ => true
  | _ :: _, [] => false
  | a :: as, b :: bs => a == b && isPrefixL as bs

/-- Python's `pat in s` substring test (empty pattern matches everything). -/
def isSubstrL (pat : List Char) : List Char → Bool
  | [] => isPrefixL pat []
  | c :: rest => isPrefixL pat (c :: rest) || isSubstrL pat rest

/-- `String`-level wrapper for Python's `pat in s`. -/
def isSubstrStr (pat s : String) : Bool := isSubstrL pat.data s.data

/-- Python's `s.replace("www.", "")`: removes every occurrence of `"www."`,
left-to-right, non-overlapping — not only a leading one. -/
def stripWWW : List Char → List Char
  | 'w' :: 'w' :: 'w' :: '.' :: rest => stripWWW rest
  | c :: rest => c :: stripWWW rest
  | [] => []

/-! ## `urllib.parse.urlparse(...).netloc`

Modelled for URLs whose authority component is bracket-free: CPython
additionally raises `ValueError` when the authority has unmatched `[`/`]`
(the IPv6 validity check); inputs exercising that path are outside this
model.  Scheme recognition follows CPython's `urlsplit`: the part before
the first `:` is a scheme when it is nonempty, starts with an ASCII
letter, and consists of ASCII letters, digits, `+`, `-`, `.` only. -/

/-- CPython `scheme_chars`. -/
def schemeChar (c : Char) : Bool := c.isAlpha || c.isDigit || c == '+' || c == '-' || c == '.'

/-- Split a character list at its first `:`, when present. -/
def splitOnColon : List Char → Option (List Char × List Char)
  | [] => none
  | c :: rest =>
    if c == ':' then some ([], rest)
    else (splitOnColon rest).map (fun p => (c :: p.1, p.2))

/-- A valid scheme candidate for `urlsplit`. -/
def isValidScheme (s : List Char) : Bool :=
  match s with
  | [] => false
  | c :: _ => c.isAlpha && s.all schemeChar

/-- Split off the URL scheme: returns `(scheme lowercased, remainder)`,
with an empty scheme when none is recognised. -/
def splitScheme (s : List Char) : List Char × List Char :=
  match splitOnColon s with
  | some (before, after) =>
    if isValidScheme before then (before.map Char.toLower, after) else ([], s)
  | none => ([], s)

/-- Take the authority: characters up to the first `/`, `?` or `#`. -/
def takeNetloc : List Char → List Char
  | [] => []
  | c :: rest => if c == '/' || c == '?' || c == '#' then [] else c :: takeNetloc rest

/-- `urlparse(s).netloc` on character lists: the authority is present only
when the post-scheme remainder starts with `//`. -/
def netlocL (s : List Char) : List Char :=
  match (splitScheme s).2 with
  | '/' :: '/' :: r => takeNetloc r
  | _ => []

/-- `urlparse(url).netloc` as a `String` function. -/
def netlocOf (url : String) : String := String.mk (netlocL url.data)

/-- `urlparse(url).scheme` as a `String` function. -/
def schemeOf (url : String) : String := String.mk (splitScheme url.data).1

/-! ## Social classifier (`is_social_link`, lines 48–55) -/

/-- The `SOCIAL_DOMAINS` catalog, in its Python insertion order. -/
def SOCIAL_DOMAINS : List (String × String) :=
  [("facebook.com", "Facebook"), ("instagram.com", "Instagram")]

/-- The host string the classifier tests against the catalog:
`urlparse(url.lower()).netloc.replace("www.", "")`. -/
def classifierHost (url : String) : List Char :=
  stripWWW (netlocL (url.data.map Char.toLower))

/-- `is_social_link(url)`: the platform of the first catalog domain that
occurs as a substring of the host, else `none` (Python `None`). -/
def is_social_link (url : String) : Option String :=
  (SOCIAL_DOMAINS.find? (fun p => isSubstrL p.1.data (classifierHost url))).map (fun p => p.2)

/-- Modelled from the spec: the spec's classifier strips only an optional
LEADING `"www."` from the host, whereas the code removes every occurrence.
This definition follows the spec's words, for comparison with
`is_social_link`. -/
def stripLeadingWWW : List Char → List Char
  | 'w' :: 'w' :: 'w' :: '.' :: rest => rest
  | s => s

/-- Modelled from the spec: classifier whose host is lowercased with an
optional leading `"www."` stripped (spec section 4.2 wording). -/
def spec_classify (url : String) : Option String :=
  let domain := stripLeadingWWW (netlocL (url.data.map Char.toLower))
  (SOCIAL_DOMAINS.find? (fun p => isSubstrL p.1.data domain)).map (fun p => p.2)

/-! ## Fetch (lines 28–36)

`fetch` is `async def fetch(session, url)` with the network abstracted:
`net url = none` models the request raising (timeout, DNS failure,
connection refused, invalid URL — all caught by the bare `except`),
`some (body, status)` models a completed response.  The body is read only
on status 200; otherwise the empty string is returned with the status. -/

/-- Pure network oracle: `none` = the request raised. -/
abbrev NetOracle := String → Option (String × Nat)

/-- Pure model of `extract_links_from_html(html, base)`: `BeautifulSoup`
anchor scanning plus `urljoin` are abstracted as an oracle from the HTML
body and the base URL to the resolved link list (Python returns a set;
the list is its iteration order). -/
abbrev ExtractOracle := String → String → List String

/-- `fetch(session, url)` → `(text, status)`. -/
def fetch (net : NetOracle) (url : String) : String × Nat :=
  match net url with
  | none => ("", 0)
  | some (body, status) => if status = 200 then (body, status) else ("", status)

/-! ## Crawl state (`crawl_site`, lines 58–120) -/

/-- The `social_links` dict: one entry per catalog platform. -/
structure Findings where
  facebook : String
  instagram : String
deriving DecidableEq, Repr

/-- The initial `social_links` dict (line 61). -/
def initFindings : Findings := { facebook := "Not Found", instagram := "Not Found" }

/-- The crawl loop's mutable state.  `visited` is kept as the list of URLs
in the order they were added — since line 80 adds each URL immediately
before its fetch (line 83), `visited` is exactly the fetch sequence.
`trace` is a ghost field, absent from the source: it records each
`(fetched page URL, base URL passed to extract_links_from_html)` pair. -/
structure CrawlState where
  visited : List String
  toVisit : List String
  social : Findings
  pagesCrawled : Nat
  statusCode : Nat
  trace : List (String × String)
deriving DecidableEq, Repr

/-- The state entering the while loop (lines 59–69). -/
def initState (baseUrl : String) : CrawlState :=
  { visited := [], toVisit := [baseUrl], social := initFindings,
    pagesCrawled := 0, statusCode := 0, trace := [] }

/-- Findings update for one link (lines 94–98): record the link only for a
platform still "Not Found".  `is_social_link` only ever returns the two
catalog names, so the catch-all branch is unreachable. -/
def updateFindings (social : Findings) (link : String) : Findings :=
  match is_social_link link with
  | some "Facebook" =>
    if social.facebook = "Not Found" then { social with facebook := link } else social
  | some "Instagram" =>
    if social.instagram = "Not Found" then { social with instagram := link } else social
  | _ => social

/-- Frontier update for one link (lines 100–106): add it when the root
site's domain occurs in the link's domain, the link is unvisited, and the
frontier holds fewer than 10 URLs.  `to_visit` is a Python set, so adding
a member is a no-op; the list keeps set semantics by never appending a
present element. -/
def addToFrontier (baseDomain : String) (visited toVisit : List String) (link : String) :
    List String :=
  if isSubstrStr baseDomain (netlocOf link) ∧ link ∉ visited
      ∧ toVisit.length < 10 ∧ link ∉ toVisit
  then toVisit ++ [link] else toVisit

/-- One iteration of the `for link in links` body (lines 92–106). -/
def processLink (baseDomain : String) (visited : List String)
    (acc : Findings × List String) (link : String) : Findings × List String :=
  (updateFindings acc.1 link, addToFrontier baseDomain visited acc.2 link)

/-- The whole `for link in links` loop. -/
def processLinks (baseDomain : String) (visited : List String) (social : Findings)
    (toVisit : List String) (links : List String) : Findings × List String :=
  links.foldl (processLink baseDomain visited) (social, toVisit)

/-- Lines 80–106 for a popped unvisited URL: mark visited, count the page,
fetch, record the first fetch's status, and — when a body came back —
extract links *against the crawl's base URL* (line 90 passes `base_url`,
not `next_url`) and process them. -/
def fetchStep (net : NetOracle) (extract : ExtractOracle)
    (baseUrl baseDomain nextUrl : String) (rest : List String) (st : CrawlState) :
    CrawlState :=
  let hs := fetch net nextUrl
  let pages := st.pagesCrawled + 1
  let status := if pages = 1 then hs.2 else st.statusCode
  let visited := st.visited ++ [nextUrl]
  if hs.1 = "" then
    { st with visited := visited, toVisit := rest,
              pagesCrawled := pages, statusCode := status }
  else
    let pr := processLinks baseDomain visited st.social rest (extract hs.1 baseUrl)
    { visited := visited, toVisit := pr.2, social := pr.1,
      pagesCrawled := pages, statusCode := status,
      trace := st.trace ++ [(nextUrl, baseUrl)] }

/-- One iteration of the while loop (lines 71–106): `none` means the loop
stops before fetching anything — the guard fails (empty frontier or
`pages_crawled ≥ 3`) or the early-exit break fires (both platforms found).
The frontier is popped at its head (Python `set.pop` order is
unspecified). -/
def crawlStep (net : NetOracle) (extract : ExtractOracle)
    (baseUrl baseDomain : String) (st : CrawlState) : Option CrawlState :=
  match st.toVisit with
  | [] => none
  | nextUrl :: rest =>
    if st.pagesCrawled < 3 then
      if st.social.facebook ≠ "Not Found" ∧ st.social.instagram ≠ "Not Found" then none
      else if nextUrl ∈ st.visited then some { st with toVisit := rest }
      else some (fetchStep net extract baseUrl baseDomain nextUrl rest st)
    else none

/-- The while loop, fuel-indexed; `crawlFuel` below always suffices
(`crawlLoop_stopCond`). -/
def crawlLoop (net : NetOracle) (extract : ExtractOracle)
    (baseUrl baseDomain : String) : Nat → CrawlState → CrawlState
  | 0, st => st
  | fuel + 1, st =>
    match crawlStep net extract baseUrl baseDomain st with
    | none => st
    | some st' => crawlLoop net extract baseUrl baseDomain fuel st'

/-- Ample fuel: the loop makes at most `11 * 3 + 1 = 34` iterations. -/
def crawlFuel : Nat := 40

/-- The crawl loop's final state for one target:
`max_pages = 3`, `base_domain = urlparse(base_url).netloc` (line 64). -/
def crawlFinalState (net : NetOracle) (extract : ExtractOracle) (baseUrl : String) :
    CrawlState :=
  crawlLoop net extract baseUrl (netlocOf baseUrl) crawlFuel (initState baseUrl)

/-- The result dict of `crawl_site` (lines 111–120; the wall-clock duration
and timestamp fields are real-time and not modelled). -/
structure CrawlResult where
  businessName : String
  website : String
  facebook : String
  instagram : String
  statusCode : Nat
  pagesCrawled : Nat
deriving DecidableEq, Repr

/-- `crawl_site(session, base_url, biz_name)`. -/
def crawl_site (net : NetOracle) (extract : ExtractOracle) (baseUrl bizName : String) :
    CrawlResult :=
  let final := crawlFinalState net extract baseUrl
  { businessName := bizName, website := baseUrl,
    facebook := final.social.facebook, instagram := final.social.instagram,
    statusCode := final.statusCode, pagesCrawled := final.pagesCrawled }

/-! ## Orchestrator (`process_websites`, lines 123–131)

The Streamlit progress calls are modelled as an event list: after target
`i` (0-based) completes, the pair `(i + 1, total)` is emitted — the
arguments of `progress_bar.progress((i + 1) / len(businesses))`. -/

/-- The `for i, (biz_name, url) in enumerate(businesses)` loop. -/
def processAux (net : NetOracle) (extract : ExtractOracle) (total : Nat) :
    Nat → List (String × String) → List CrawlResult × List (Nat × Nat)
  | _, [] => ([], [])
  | i, (bizName, url) :: rest =>
    let result := crawl_site net extract url bizName
    let tail := processAux net extract total (i + 1) rest
    (result :: tail.1, (i + 1, total) :: tail.2)

/-- `process_websites(businesses, ...)`: the ordered result list together
with the progress events. -/
def process_websites (net : NetOracle) (extract : ExtractOracle)
    (businesses : List (String × String)) : List CrawlResult × List (Nat × Nat) :=
  processAux net extract businesses.length 0 businesses

/-! ## Spec-side predicates used by claims -/

/-- Modelled from the spec: a root URL "parses as an absolute HTTP(S) URL"
(spec section 3, Crawl Target) — an `http` or `https` scheme with a
nonempty authority. -/
def parsesAsAbsoluteHttpUrl (url : String) : Bool :=
  (schemeOf url = "http" ∨ schemeOf url = "https") ∧ netlocOf url ≠ ""

/-- The crawl loop's stop condition: the disjunction of the three
termination causes (all platforms found, page budget reached, frontier
empty). -/
def stopCond (st : CrawlState) : Prop :=
  (st.social.facebook ≠ "Not Found" ∧ st.social.instagram ≠ "Not Found")
  ∨ 3 ≤ st.pagesCrawled ∨ st.toVisit = []

instance (st : CrawlState) : Decidable (stopCond st) := by
  unfold stopCond; infer_instance

/-- The loop invariant behind the Visited/Frontier claims: the fetch
sequence has no duplicates, the frontier has set semantics, and the
frontier never holds an already-fetched URL. -/
def CrawlInv (st : CrawlState) : Prop :=
  st.visited.Nodup ∧ st.toVisit.Nodup ∧ ∀ u ∈ st.toVisit, u ∉ st.visited

instance (st : CrawlState) : Decidable (CrawlInv st) := by
  unfold CrawlInv; infer_instance

/-- The findings well-formedness invariant: each platform entry is either
"Not Found" or a URL the classifier maps to exactly that platform. -/
def FindingsInv (social : Findings) : Prop :=
  (social.facebook = "Not Found" ∨ is_social_link social.facebook = some "Facebook")
  ∧ (social.instagram = "Not Found" ∨ is_social_link social.instagram = some "Instagram")

instance (social : Findings) : Decidable (FindingsInv social) := by
  unfold FindingsInv; infer_instance

/-! ## Concrete oracles for counterexamples and witnesses -/

/-- A two-page site: the root serves body `"A"`, whose only link is the
internal page `https://ex.com/p2`, which serves body `"B"` with no links. -/
def net1 : NetOracle := fun u =>
  if u = "https://ex.com" then some ("A", 200)
  else if u = "https://ex.com/p2" then some ("B", 200)
  else none

/-- Extractor for `net1`'s bodies. -/
def extract1 : ExtractOracle := fun html _base =>
  if html = "A" then ["https://ex.com/p2"] else []

/-- A network on which every request raises (unreachable / invalid URLs). -/
def net2 : NetOracle := fun _ => none

/-- An extractor returning no links. -/
def extract0 : ExtractOracle := fun _ _ => []

end SocialScraper

namespace SocialScraper

/-! ## Helper lemmas: link processing -/

theorem addToFrontier_length (d : String) (v tv : List String) (l : String) :
    (addToFrontier d v tv l).length ≤ max tv.length 10 := by
  unfold addToFrontier
  split
  · rename_i h
    simp only [List.length_append, List.length_cons, List.length_nil]
    omega
  · omega

theorem processLinks_length (d : String) (v : List String) (s : Findings)
    (tv links : List String) :
    (processLinks d v s tv links).2.length ≤ max tv.length 10 := by
  induction links generalizing s tv with
  | nil => simp [processLinks]
  | cons l ls ih =>
    have h1 := ih (updateFindings s l) (addToFrontier d v tv l)
    have h2 := addToFrontier_length d v tv l
    have heq : processLinks d v s tv (l :: ls)
        = processLinks d v (updateFindings s l) (addToFrontier d v tv l) ls := rfl
    rw [heq]
    omega

theorem addToFrontier_inv (d : String) (v tv : List String) (l : String)
    (h : tv.Nodup ∧ ∀ u ∈ tv, u ∉ v) :
    (addToFrontier d v tv l).Nodup ∧ ∀ u ∈ addToFrontier d v tv l, u ∉ v := by
  unfold addToFrontier
  split
  · rename_i hc
    obtain ⟨hnd, hdis⟩ := h
    refine ⟨?_, ?_⟩
    · rw [List.nodup_append]
      exact ⟨hnd, List.nodup_singleton l, by
        intro a ha hb
        rw [List.mem_singleton] at hb
        exact hc.2.2.2 (hb ▸ ha)⟩
    · intro u hu
      rcases List.mem_append.mp hu with h1 | h1
      · exact hdis u h1
      · rw [List.mem_singleton] at h1
        exact h1 ▸ hc.2.1
  · exact h

theorem processLinks_inv (d : String) (v : List String) (s : Findings)
    (tv links : List String) (h : tv.Nodup ∧ ∀ u ∈ tv, u ∉ v) :
    (processLinks d v s tv links).2.Nodup
    ∧ ∀ u ∈ (processLinks d v s tv links).2, u ∉ v := by
  induction links generalizing s tv with
  | nil => exact h
  | cons l ls ih => exact ih (updateFindings s l) _ (addToFrontier_inv d v tv l h)

theorem updateFindings_inv (s : Findings) (l : String) (h : FindingsInv s) :
    FindingsInv (updateFindings s l) := by
  unfold updateFindings
  split
  · rename_i heq
    split
    · exact ⟨Or.inr heq, h.2⟩
    · exact h
  · rename_i heq
    split
    · exact ⟨h.1, Or.inr heq⟩
    · exact h
  · exact h

theorem processLinks_findings_inv (d : String) (v : List String) (s : Findings)
    (tv links : List String) (h : FindingsInv s) :
    FindingsInv (processLinks d v s tv links).1 := by
  induction links generalizing s tv with
  | nil => exact h
  | cons l ls ih => exact ih (updateFindings s l) _ (updateFindings_inv s l h)

theorem updateFindings_facebook_set (s : Findings) (l : String)
    (h : s.facebook ≠ "Not Found") :
    (updateFindings s l).facebook = s.facebook := by
  unfold updateFindings
  split
  · split
    · rename_i hf; exact absurd hf h
    · rfl
  · split <;> rfl
  · rfl

theorem updateFindings_instagram_set (s : Findings) (l : String)
    (h : s.instagram ≠ "Not Found") :
    (updateFindings s l).instagram = s.instagram := by
  unfold updateFindings
  split
  · split <;> rfl
  · split
    · rename_i hf; exact absurd hf h
    · rfl
  · rfl

theorem processLinks_facebook_set (d : String) (v : List String) (s : Findings)
    (tv links : List String) (h : s.facebook ≠ "Not Found") :
    (processLinks d v s tv links).1.facebook = s.facebook := by
  induction links generalizing s tv with
  | nil => rfl
  | cons l ls ih =>
    have h1 := updateFindings_facebook_set s l h
    have h2 := ih (updateFindings s l) (addToFrontier d v tv l) (by rw [h1]; exact h)
    exact h2.trans h1

theorem processLinks_instagram_set (d : String) (v : List String) (s : Findings)
    (tv links : List String) (h : s.instagram ≠ "Not Found") :
    (processLinks d v s tv links).1.instagram = s.instagram := by
  induction links generalizing s tv with
  | nil => rfl
  | cons l ls ih =>
    have h1 := updateFindings_instagram_set s l h
    have h2 := ih (updateFindings s l) (addToFrontier d v tv l) (by rw [h1]; exact h)
    exact h2.trans h1

/-! ## Helper lemmas: one loop iteration -/

theorem fetchStep_visited (net : NetOracle) (e : ExtractOracle) (b d nx : String)
    (rest : List String) (st : CrawlState) :
    (fetchStep net e b d nx rest st).visited = st.visited ++ [nx] := by
  simp only [fetchStep]
  split <;> rfl

theorem fetchStep_pages (net : NetOracle) (e : ExtractOracle) (b d nx : String)
    (rest : List String) (st : CrawlState) :
    (fetchStep net e b d nx rest st).pagesCrawled = st.pagesCrawled + 1 := by
  simp only [fetchStep]
  split <;> rfl

theorem fetchStep_status (net : NetOracle) (e : ExtractOracle) (b d nx : String)
    (rest : List String) (st : CrawlState) :
    (fetchStep net e b d nx rest st).statusCode
      = if st.pagesCrawled + 1 = 1 then (fetch net nx).2 else st.statusCode := by
  simp only [fetchStep]
  split <;> rfl

theorem fetchStep_toVisit_cases (net : NetOracle) (e : ExtractOracle) (b d nx : String)
    (rest : List String) (st : CrawlState) :
    (fetchStep net e b d nx rest st).toVisit = rest
    ∨ (fetchStep net e b d nx rest st).toVisit
        = (processLinks d (st.visited ++ [nx]) st.social rest (e (fetch net nx).1 b)).2 := by
  simp only [fetchStep]
  split
  · exact Or.inl rfl
  · exact Or.inr rfl

theorem fetchStep_social_cases (net : NetOracle) (e : ExtractOracle) (b d nx : String)
    (rest : List String) (st : CrawlState) :
    (fetchStep net e b d nx rest st).social = st.social
    ∨ (fetchStep net e b d nx rest st).social
        = (processLinks d (st.visited ++ [nx]) st.social rest (e (fetch net nx).1 b)).1 := by
  simp only [fetchStep]
  split
  · exact Or.inl rfl
  · exact Or.inr rfl

theorem fetchStep_trace_cases (net : NetOracle) (e : ExtractOracle) (b d nx : String)
    (rest : List String) (st : CrawlState) :
    (fetchStep net e b d nx rest st).trace = st.trace
    ∨ (fetchStep net e b d nx rest st).trace = st.trace ++ [(nx, b)] := by
  simp only [fetchStep]
  split
  · exact Or.inl rfl
  · exact Or.inr rfl

theorem crawlStep_eq_some (net : NetOracle) (e : ExtractOracle) (b d : String)
    (st st' : CrawlState) (h : crawlStep net e b d st = some st') :
    ∃ nx rest, st.toVisit = nx :: rest ∧ st.pagesCrawled < 3
      ∧ ((nx ∈ st.visited ∧ st' = { st with toVisit := rest })
         ∨ (nx ∉ st.visited ∧ st' = fetchStep net e b d nx rest st)) := by
  rcases htv : st.toVisit with _ | ⟨nx, rest⟩
  · simp [crawlStep, htv] at h
  · simp only [crawlStep, htv] at h
    by_cases hp : st.pagesCrawled < 3
    · rw [if_pos hp] at h
      by_cases hb : st.social.facebook ≠ "Not Found" ∧ st.social.instagram ≠ "Not Found"
      · rw [if_pos hb] at h
        exact absurd h (by simp)
      · rw [if_neg hb] at h
        by_cases hm : nx ∈ st.visited
        · rw [if_pos hm] at h
          exact ⟨nx, rest, rfl, hp, Or.inl ⟨hm, (Option.some.inj h).symm⟩⟩
        · rw [if_neg hm] at h
          exact ⟨nx, rest, rfl, hp, Or.inr ⟨hm, (Option.some.inj h).symm⟩⟩
    · rw [if_neg hp] at h
      exact absurd h (by simp)

theorem crawlStep_none_iff (net : NetOracle) (e : ExtractOracle) (b d : String)
    (st : CrawlState) :
    crawlStep net e b d st = none ↔ stopCond st := by
  rcases htv : st.toVisit with _ | ⟨nx, rest⟩
  · simp [crawlStep, stopCond, htv]
  · simp only [crawlStep, stopCond, htv]
    by_cases hp : st.pagesCrawled < 3
    · rw [if_pos hp]
      by_cases hb : st.social.facebook ≠ "Not Found" ∧ st.social.instagram ≠ "Not Found"
      · rw [if_pos hb]
        exact iff_of_true rfl (Or.inl hb)
      · rw [if_neg hb]
        refine iff_of_false ?_ ?_
        · by_cases hm : nx ∈ st.visited
          · rw [if_pos hm]; simp
          · rw [if_neg hm]; simp
        · rintro (hc | hc | hc)
          · exact hb hc
          · omega
          · exact List.cons_ne_nil nx rest hc
    · rw [if_neg hp]
      exact iff_of_true rfl (Or.inr (Or.inl (by omega)))

theorem crawlLoop_zero (net : NetOracle) (e : ExtractOracle) (b d : String)
    (st : CrawlState) : crawlLoop net e b d 0 st = st := rfl

theorem crawlLoop_succ (net : NetOracle) (e : ExtractOracle) (b d : String)
    (fuel : Nat) (st : CrawlState) :
    crawlLoop net e b d (fuel + 1) st
      = match crawlStep net e b d st with
        | none => st
        | some st' => crawlLoop net e b d fuel st' := rfl

theorem crawlLoop_of_stop (net : NetOracle) (e : ExtractOracle) (b d : String)
    (st : CrawlState) (h : stopCond st) (fuel : Nat) :
    crawlLoop net e b d fuel st = st := by
  cases fuel with
  | zero => rfl
  | succ n => rw [crawlLoop_succ, (crawlStep_none_iff net e b d st).mpr h]

theorem crawlLoop_preserves (net : NetOracle) (e : ExtractOracle) (b d : String)
    (P : CrawlState → Prop)
    (hstep : ∀ s s', crawlStep net e b d s = some s' → P s → P s') :
    ∀ (fuel : Nat) (st : CrawlState), P st → P (crawlLoop net e b d fuel st) := by
  intro fuel
  induction fuel with
  | zero => intro st h; exact h
  | succ n ih =>
    intro st h
    rw [crawlLoop_succ]
    cases hs : crawlStep net e b d st with
    | none => exact h
    | some st' => exact ih st' (hstep st st' hs h)

theorem crawlStep_toVisit_le (net : NetOracle) (e : ExtractOracle) (b d : String)
    (st st' : CrawlState) (h : crawlStep net e b d st = some st')
    (hlen : st.toVisit.length ≤ 10) : st'.toVisit.length ≤ 10 := by
  obtain ⟨nx, rest, htv, hp, hcase⟩ := crawlStep_eq_some net e b d st st' h
  have hr : st.toVisit.length = rest.length + 1 := by rw [htv]; rfl
  rcases hcase with ⟨hm, rfl⟩ | ⟨hm, rfl⟩
  · show rest.length ≤ 10
    omega
  · rcases fetchStep_toVisit_cases net e b d nx rest st with hc | hc <;> rw [hc]
    · omega
    · have := processLinks_length d (st.visited ++ [nx]) st.social rest (e (fetch net nx).1 b)
      omega

theorem crawlStep_measure (net : NetOracle) (e : ExtractOracle) (b d : String)
    (st st' : CrawlState) (h : crawlStep net e b d st = some st')
    (hlen : st.toVisit.length ≤ 10) :
    11 * (3 - st'.pagesCrawled) + st'.toVisit.length
      < 11 * (3 - st.pagesCrawled) + st.toVisit.length := by
  obtain ⟨nx, rest, htv, hp, hcase⟩ := crawlStep_eq_some net e b d st st' h
  have hr : st.toVisit.length = rest.length + 1 := by rw [htv]; rfl
  rcases hcase with ⟨hm, rfl⟩ | ⟨hm, rfl⟩
  · show 11 * (3 - st.pagesCrawled) + rest.length < _
    omega
  · have h1 := fetchStep_pages net e b d nx rest st
    have h2 : (fetchStep net e b d nx rest st).toVisit.length ≤ 10 := by
      rcases fetchStep_toVisit_cases net e b d nx rest st with hc | hc <;> rw [hc]
      · omega
      · have := processLinks_length d (st.visited ++ [nx]) st.social rest (e (fetch net nx).1 b)
        omega
    omega

theorem crawlLoop_stopCond (net : NetOracle) (e : ExtractOracle) (b d : String) :
    ∀ (fuel : Nat) (st : CrawlState), st.toVisit.length ≤ 10 →
      11 * (3 - st.pagesCrawled) + st.toVisit.length < fuel →
      stopCond (crawlLoop net e b d fuel st) := by
  intro fuel
  induction fuel with
  | zero => intro st h1 h2; omega
  | succ n ih =>
    intro st h1 h2
    rw [crawlLoop_succ]
    cases hs : crawlStep net e b d st with
    | none => exact (crawlStep_none_iff net e b d st).mp hs
    | some st' =>
      have := crawlStep_measure net e b d st st' hs h1
      exact ih st' (crawlStep_toVisit_le net e b d st st' hs h1) (by omega)

theorem crawlStep_init (net : NetOracle) (e : ExtractOracle) (b d u : String) :
    crawlStep net e b d (initState u)
      = some (fetchStep net e b d u [] (initState u)) := by
  simp [crawlStep, initState, initFindings]

theorem fetchStep_crawlInv (net : NetOracle) (e : ExtractOracle) (b d nx : String)
    (rest : List String) (st : CrawlState) (hinv : CrawlInv st)
    (htv : st.toVisit = nx :: rest) (hm : nx ∉ st.visited) :
    CrawlInv (fetchStep net e b d nx rest st) := by
  obtain ⟨hv, htn, hdis⟩ := hinv
  rw [htv] at htn
  have hrestn : rest.Nodup := htn.of_cons
  have hrest : ∀ u ∈ rest, u ∉ st.visited ++ [nx] := by
    intro u hu
    have h2 : u ∉ st.visited := hdis u (by rw [htv]; exact List.mem_cons_of_mem _ hu)
    have h3 : u ≠ nx := fun heq => (List.nodup_cons.mp htn).1 (heq ▸ hu)
    simp [List.mem_append, h2, h3]
  have hvn : (st.visited ++ [nx]).Nodup := by
    rw [List.nodup_append]
    refine ⟨hv, List.nodup_singleton _, ?_⟩
    intro a ha hb
    rw [List.mem_singleton] at hb
    exact hm (hb ▸ ha)
  refine ⟨?_, ?_, ?_⟩
  · rw [fetchStep_visited]; exact hvn
  · rcases fetchStep_toVisit_cases net e b d nx rest st with hc | hc <;> rw [hc]
    · exact hrestn
    · exact (processLinks_inv d (st.visited ++ [nx]) st.social rest _ ⟨hrestn, hrest⟩).1
  · intro u hu
    rw [fetchStep_visited]
    rcases fetchStep_toVisit_cases net e b d nx rest st with hc | hc
    · rw [hc] at hu; exact hrest u hu
    · rw [hc] at hu
      exact (processLinks_inv d (st.visited ++ [nx]) st.social rest _ ⟨hrestn, hrest⟩).2 u hu

/-! ## Helper lemmas: the whole crawl -/

/-- The first loop iteration always pops and fetches the root URL; from
then on `statusCode` is frozen and `pagesCrawled` is at least 1. -/
theorem crawlFinalState_status (net : NetOracle) (e : ExtractOracle) (u : String) :
    (crawlFinalState net e u).statusCode = (fetch net u).2
    ∧ 1 ≤ (crawlFinalState net e u).pagesCrawled := by
  unfold crawlFinalState crawlFuel
  rw [show (40 : Nat) = 39 + 1 from rfl, crawlLoop_succ, crawlStep_init]
  have h0 : (fetchStep net e u (netlocOf u) u [] (initState u)).statusCode
      = (fetch net u).2 := by
    rw [fetchStep_status]
    rfl
  have h1 : (fetchStep net e u (netlocOf u) u [] (initState u)).pagesCrawled = 1 :=
    fetchStep_pages net e u (netlocOf u) u [] (initState u)
  refine crawlLoop_preserves net e u (netlocOf u)
    (fun st => st.statusCode = (fetch net u).2 ∧ 1 ≤ st.pagesCrawled) ?_ 39 _ ⟨h0, by omega⟩
  intro s s' hs hP
  obtain ⟨nx, rest, htv, hp, hcase⟩ := crawlStep_eq_some net e u (netlocOf u) s s' hs
  rcases hcase with ⟨hm, rfl⟩ | ⟨hm, rfl⟩
  · exact hP
  · refine ⟨?_, ?_⟩
    · rw [fetchStep_status, if_neg (by omega)]
      exact hP.1
    · rw [fetchStep_pages]
      omega

/-- When the root fetch raises, the whole crawl is a single failed page. -/
theorem crawlFinalState_rootFail (net : NetOracle) (e : ExtractOracle) (u : String)
    (h : net u = none) :
    crawlFinalState net e u
      = { visited := [u], toVisit := [], social := initFindings,
          pagesCrawled := 1, statusCode := 0, trace := [] } := by
  unfold crawlFinalState crawlFuel
  rw [show (40 : Nat) = 39 + 1 from rfl, crawlLoop_succ, crawlStep_init]
  have hf : fetchStep net e u (netlocOf u) u [] (initState u)
      = { visited := [u], toVisit := [], social := initFindings,
          pagesCrawled := 1, statusCode := 0, trace := [] } := by
    unfold fetchStep fetch initState
    rw [h]
    rfl
  rw [hf]
  exact crawlLoop_of_stop net e u (netlocOf u) _ (Or.inr (Or.inr rfl)) 39

/-! ## Claim C1 -/

/-- C1 counterexample: on the two-page site `net1`, the crawl fetches
`https://ex.com/p2` as its second page but extracts that page's links
with base URL `https://ex.com` — the crawl's root, not the fetched page's
own URL.  This refutes the claim that the Link Extractor is invoked with
the fetched page's own URL as base for every fetched page. -/
theorem extraction_base_counterexample :
    ("https://ex.com/p2", "https://ex.com")
        ∈ (crawlFinalState net1 extract1 "https://ex.com").trace
    ∧ "https://ex.com" ≠ "https://ex.com/p2" :=
  ⟨by decide, by decide⟩

/-- C1 amended: for every crawl, every invocation of the Link Extractor
resolves against the crawl's ROOT URL as base (line 90 passes `base_url`),
which coincides with the fetched page's own URL only for the root page. -/
theorem extraction_base_is_root (net : NetOracle) (e : ExtractOracle) (u : String) :
    ∀ p ∈ (crawlFinalState net e u).trace, p.2 = u := by
  have hstep : ∀ s s', crawlStep net e u (netlocOf u) s = some s' →
      (∀ p ∈ s.trace, p.2 = u) → ∀ p ∈ s'.trace, p.2 = u := by
    intro s s' hs hP
    obtain ⟨nx, rest, htv, hp, hcase⟩ := crawlStep_eq_some net e u (netlocOf u) s s' hs
    rcases hcase with ⟨hm, rfl⟩ | ⟨hm, rfl⟩
    · exact hP
    · rcases fetchStep_trace_cases net e u (netlocOf u) nx rest s with hc | hc <;> rw [hc]
      · exact hP
      · intro p hp2
        rcases List.mem_append.mp hp2 with h1 | h1
        · exact hP p h1
        · rw [List.mem_singleton] at h1
          rw [h1]
  exact crawlLoop_preserves net e u (netlocOf u) (fun st => ∀ p ∈ st.trace, p.2 = u)
    hstep crawlFuel (initState u) (by intro p hp2; simp [initState] at hp2)

/-- C1 witness: the amended theorem applied to the concrete two-page
crawl, at the root page's extraction call. -/
theorem extraction_base_is_root_witness :
    (("https://ex.com", "https://ex.com") : String × String).2 = "https://ex.com" :=
  extraction_base_is_root net1 extract1 "https://ex.com"
    ("https://ex.com", "https://ex.com") (by decide)

/-! ## Claim C2 -/

/-- C2 counterexample: `"notaurl"` does not parse as an absolute HTTP(S)
URL, yet the crawl's result records ONE page crawled, not zero — the
invalid root is popped, counted, and its failed fetch swallowed. -/
theorem invalid_root_counterexample :
    parsesAsAbsoluteHttpUrl "notaurl" = false
    ∧ (crawl_site net2 extract0 "notaurl" "Biz").pagesCrawled = 1
    ∧ (crawl_site net2 extract0 "notaurl" "Biz").pagesCrawled ≠ 0 :=
  ⟨by decide, by decide, by decide⟩

/-- C2 amended: a target whose root URL does not parse as an absolute
HTTP(S) URL (so that the request for it raises, modelled `net u = none`)
still produces a Crawl Result without raising, but with `pagesCrawled = 1`
— not zero — along with status 0 and all findings "Not Found". -/
theorem invalid_root_one_page (net : NetOracle) (e : ExtractOracle) (u n : String)
    (hu : parsesAsAbsoluteHttpUrl u = false) (h : net u = none) :
    (crawl_site net e u n).pagesCrawled = 1
    ∧ (crawl_site net e u n).statusCode = 0
    ∧ (crawl_site net e u n).facebook = "Not Found"
    ∧ (crawl_site net e u n).instagram = "Not Found" := by
  have hf := crawlFinalState_rootFail net e u h
  simp [crawl_site, hf, initFindings]

/-- C2 witness: the amended theorem at the concrete invalid root. -/
theorem invalid_root_one_page_witness :
    (crawl_site net2 extract0 "notaurl" "Biz2").pagesCrawled = 1
    ∧ (crawl_site net2 extract0 "notaurl" "Biz2").statusCode = 0
    ∧ (crawl_site net2 extract0 "notaurl" "Biz2").facebook = "Not Found"
    ∧ (crawl_site net2 extract0 "notaurl" "Biz2").instagram = "Not Found" :=
  invalid_root_one_page net2 extract0 "notaurl" "Biz2" (by decide) rfl

/-! ## Claim C3 -/

/-- C3 counterexample: the code's host normalisation removes EVERY
occurrence of `"www."`, not only a leading one: for
`https://facebook.cwww.om/x` the host `facebook.cwww.om` becomes
`facebook.com` and the code classifies it as Facebook, while the host
with only an optional leading `"www."` stripped contains no catalog
suffix (the spec-worded classifier returns no match). -/
theorem classifier_counterexample :
    is_social_link "https://facebook.cwww.om/x" = some "Facebook"
    ∧ spec_classify "https://facebook.cwww.om/x" = none :=
  ⟨by decide, by decide⟩

/-- C3 amended: the classifier returns a platform name exactly when the
URL's host, lowercased and with EVERY occurrence of `"www."` removed,
contains a catalog domain suffix as a substring (Facebook checked first),
and the claim's concrete examples hold as stated. -/
theorem classifier_substring_amended :
    (∀ url : String,
      (is_social_link url = some "Facebook"
        ↔ isSubstrL "facebook.com".data (classifierHost url) = true)
      ∧ (is_social_link url = some "Instagram"
        ↔ (isSubstrL "facebook.com".data (classifierHost url) = false
           ∧ isSubstrL "instagram.com".data (classifierHost url) = true))
      ∧ (is_social_link url = none
        ↔ (isSubstrL "facebook.com".data (classifierHost url) = false
           ∧ isSubstrL "instagram.com".data (classifierHost url) = false)))
    ∧ is_social_link "https://www.facebook.com/acme" = some "Facebook"
    ∧ is_social_link "https://m.facebook.com/x" = some "Facebook"
    ∧ is_social_link "https://notfacebook.com.evil.io" = some "Facebook"
    ∧ is_social_link "https://twitter.com/x" = none
    ∧ is_social_link "notaurl" = none := by
  refine ⟨?_, by decide, by decide, by decide, by decide, by decide⟩
  intro url
  unfold is_social_link SOCIAL_DOMAINS
  cases hfb : isSubstrL "facebook.com".data (classifierHost url) <;>
    cases hig : isSubstrL "instagram.com".data (classifierHost url) <;>
      simp [List.find?, hfb, hig]

/-! ## Claim C4 -/

/-- C4: every Crawl Result satisfies `pagesCrawled ≤ 3`, the page budget
hardcoded as `max_pages = 3` (line 68). -/
theorem pages_le_maxPages (net : NetOracle) (e : ExtractOracle) (u n : String) :
    (crawl_site net e u n).pagesCrawled ≤ 3 := by
  have hstep : ∀ s s', crawlStep net e u (netlocOf u) s = some s' →
      s.pagesCrawled ≤ 3 → s'.pagesCrawled ≤ 3 := by
    intro s s' hs hP
    obtain ⟨nx, rest, htv, hp, hcase⟩ := crawlStep_eq_some net e u (netlocOf u) s s' hs
    rcases hcase with ⟨hm, rfl⟩ | ⟨hm, rfl⟩
    · exact hP
    · rw [fetchStep_pages]
      omega
  exact crawlLoop_preserves net e u (netlocOf u) (fun st => st.pagesCrawled ≤ 3)
    hstep crawlFuel (initState u) (Nat.zero_le 3)

/-! ## Claim C5 -/

/-- C5: no URL is fetched twice.  `visited` is exactly the fetch sequence
(each URL is appended immediately before its fetch), so the first
conjunct is step-preservation of the invariant — fetch sequence without
duplicates, set-semantic frontier, frontier disjoint from the Visited Set
— the second is its truth at initialisation, and the third its truth for
the final state of every crawl. -/
theorem visited_frontier_inv (net : NetOracle) (e : ExtractOracle) (b d : String) :
    (∀ st st', crawlStep net e b d st = some st' → CrawlInv st → CrawlInv st')
    ∧ (∀ u : String, CrawlInv (initState u))
    ∧ (∀ u : String, CrawlInv (crawlFinalState net e u)) := by
  have hstep : ∀ (b' d' : String) (s s' : CrawlState),
      crawlStep net e b' d' s = some s' → CrawlInv s → CrawlInv s' := by
    intro b' d' s s' hs hP
    obtain ⟨nx, rest, htv, hp, hcase⟩ := crawlStep_eq_some net e b' d' s s' hs
    rcases hcase with ⟨hm, rfl⟩ | ⟨hm, rfl⟩
    · obtain ⟨h1, h2, h3⟩ := hP
      rw [htv] at h2
      refine ⟨h1, h2.of_cons, ?_⟩
      intro x hx
      exact h3 x (by rw [htv]; exact List.mem_cons_of_mem _ hx)
    · exact fetchStep_crawlInv net e b' d' nx rest s hP htv hm
  have hinit : ∀ u : String, CrawlInv (initState u) := by
    intro u
    exact ⟨List.nodup_nil, List.nodup_singleton u, by simp [initState]⟩
  refine ⟨hstep b d, hinit, ?_⟩
  intro u
  exact crawlLoop_preserves net e u (netlocOf u) CrawlInv (hstep u (netlocOf u))
    crawlFuel (initState u) (hinit u)

/-- C5 witness: the step-preservation conjunct applied to the concrete
first iteration of the two-page crawl. -/
theorem visited_frontier_inv_witness :
    CrawlInv (fetchStep net1 extract1 "https://ex.com" "ex.com" "https://ex.com" []
      (initState "https://ex.com")) :=
  (visited_frontier_inv net1 extract1 "https://ex.com" "ex.com").1
    (initState "https://ex.com") _ (by decide) (by decide)

/-! ## Claim C6 -/

/-- C6: the loop's termination condition is evaluated before any fetch —
a state satisfying the stop condition is left unchanged by the loop (no
further fetch), the step function returns `none` as soon as both catalog
platforms are found, and every crawl's final state satisfies the stop
condition (the loop stops only there, never by fuel exhaustion). -/
theorem termination_check (net : NetOracle) (e : ExtractOracle) (b d : String) :
    (∀ (st : CrawlState) (fuel : Nat), stopCond st → crawlLoop net e b d fuel st = st)
    ∧ (∀ st : CrawlState,
        st.social.facebook ≠ "Not Found" ∧ st.social.instagram ≠ "Not Found" →
        crawlStep net e b d st = none)
    ∧ (∀ u : String, stopCond (crawlFinalState net e u)) := by
  refine ⟨?_, ?_, ?_⟩
  · intro st fuel h
    exact crawlLoop_of_stop net e b d st h fuel
  · intro st h
    exact (crawlStep_none_iff net e b d st).mpr (Or.inl h)
  · intro u
    unfold crawlFinalState crawlFuel
    refine crawlLoop_stopCond net e u (netlocOf u) 40 (initState u) ?_ ?_
    · show (1 : Nat) ≤ 10
      omega
    · show 11 * (3 - 0) + 1 < 40
      omega

/-- C6 witness: the first conjunct at a stopped state (empty frontier),
and the early-exit conjunct at a state with both platforms found. -/
theorem termination_check_witness :
    crawlLoop net1 extract1 "b" "d" 5
        { visited := [], toVisit := [], social := initFindings,
          pagesCrawled := 0, statusCode := 0, trace := [] }
      = { visited := [], toVisit := [], social := initFindings,
          pagesCrawled := 0, statusCode := 0, trace := [] }
    ∧ crawlStep net1 extract1 "b" "d"
        { visited := [], toVisit := ["https://ex.com"],
          social := { facebook := "https://facebook.com/a",
                      instagram := "https://instagram.com/a" },
          pagesCrawled := 0, statusCode := 0, trace := [] } = none :=
  ⟨(termination_check net1 extract1 "b" "d").1 _ 5 (Or.inr (Or.inr rfl)),
   (termination_check net1 extract1 "b" "d").2.1 _ (by decide)⟩

/-! ## Claim C7 -/

/-- C7: first-found wins — one loop step never changes a platform entry
that is already set — and every Crawl Result's findings hold, per
platform, either "Not Found" or a URL the classifier maps to exactly that
platform (the findings have exactly the two catalog entries by the shape
of `Findings`). -/
theorem findings_first_wins (net : NetOracle) (e : ExtractOracle) (b d : String) :
    (∀ st st', crawlStep net e b d st = some st' →
        (st.social.facebook ≠ "Not Found" → st'.social.facebook = st.social.facebook)
        ∧ (st.social.instagram ≠ "Not Found" → st'.social.instagram = st.social.instagram))
    ∧ (∀ u n : String,
        ((crawl_site net e u n).facebook = "Not Found"
          ∨ is_social_link (crawl_site net e u n).facebook = some "Facebook")
        ∧ ((crawl_site net e u n).instagram = "Not Found"
          ∨ is_social_link (crawl_site net e u n).instagram = some "Instagram")) := by
  constructor
  · intro st st' hs
    obtain ⟨nx, rest, htv, hp, hcase⟩ := crawlStep_eq_some net e b d st st' hs
    rcases hcase with ⟨hm, rfl⟩ | ⟨hm, rfl⟩
    · exact ⟨fun _ => rfl, fun _ => rfl⟩
    · constructor
      · intro hnf
        rcases fetchStep_social_cases net e b d nx rest st with hc | hc
        · rw [hc]
        · rw [hc]
          exact processLinks_facebook_set d (st.visited ++ [nx]) st.social rest _ hnf
      · intro hnf
        rcases fetchStep_social_cases net e b d nx rest st with hc | hc
        · rw [hc]
        · rw [hc]
          exact processLinks_instagram_set d (st.visited ++ [nx]) st.social rest _ hnf
  · intro u n
    have hstep : ∀ s s', crawlStep net e u (netlocOf u) s = some s' →
        FindingsInv s.social → FindingsInv s'.social := by
      intro s s' hs hP
      obtain ⟨nx, rest, htv, hp, hcase⟩ := crawlStep_eq_some net e u (netlocOf u) s s' hs
      rcases hcase with ⟨hm, rfl⟩ | ⟨hm, rfl⟩
      · exact hP
      · rcases fetchStep_social_cases net e u (netlocOf u) nx rest s with hc | hc <;> rw [hc]
        · exact hP
        · exact processLinks_findings_inv (netlocOf u) (s.visited ++ [nx]) s.social rest _ hP
    have hfin : FindingsInv (crawlFinalState net e u).social :=
      crawlLoop_preserves net e u (netlocOf u) (fun st => FindingsInv st.social) hstep
        crawlFuel (initState u) ⟨Or.inl rfl, Or.inl rfl⟩
    exact ⟨hfin.1, hfin.2⟩

/-- C7 witness: the set-once conjunct applied to a concrete step whose
state already holds a Facebook finding. -/
theorem findings_first_wins_witness :
    (fetchStep net2 extract0 "b" "d" "u" []
        { visited := [], toVisit := ["u"],
          social := { facebook := "https://facebook.com/a", instagram := "Not Found" },
          pagesCrawled := 0, statusCode := 0, trace := [] }).social.facebook
      = "https://facebook.com/a" :=
  ((findings_first_wins net2 extract0 "b" "d").1
    { visited := [], toVisit := ["u"],
      social := { facebook := "https://facebook.com/a", instagram := "Not Found" },
      pagesCrawled := 0, statusCode := 0, trace := [] }
    (fetchStep net2 extract0 "b" "d" "u" []
      { visited := [], toVisit := ["u"],
        social := { facebook := "https://facebook.com/a", instagram := "Not Found" },
        pagesCrawled := 0, statusCode := 0, trace := [] })
    (by decide)).1 (by decide)

/-! ## Claim C8 -/

/-- C8: `statusCode` always records the status of the crawl's first fetch
— the root URL's — and when that fetch raises a transport error the
result has status 0, one page crawled and both findings "Not Found". -/
theorem first_page_status (net : NetOracle) (e : ExtractOracle) (u n : String) :
    (crawl_site net e u n).statusCode = (fetch net u).2
    ∧ (net u = none →
        (crawl_site net e u n).statusCode = 0
        ∧ (crawl_site net e u n).pagesCrawled = 1
        ∧ (crawl_site net e u n).facebook = "Not Found"
        ∧ (crawl_site net e u n).instagram = "Not Found") := by
  constructor
  · exact (crawlFinalState_status net e u).1
  · intro h
    have hf := crawlFinalState_rootFail net e u h
    simp [crawl_site, hf, initFindings]

/-- C8 witness: the transport-error conjunct at a concrete unreachable
root. -/
theorem first_page_status_witness :
    (crawl_site net2 extract0 "https://down.example" "D").statusCode = 0
    ∧ (crawl_site net2 extract0 "https://down.example" "D").pagesCrawled = 1
    ∧ (crawl_site net2 extract0 "https://down.example" "D").facebook = "Not Found"
    ∧ (crawl_site net2 extract0 "https://down.example" "D").instagram = "Not Found" :=
  (first_page_status net2 extract0 "https://down.example" "D").2 rfl

/-! ## Claim C9 -/

theorem processAux_spec (net : NetOracle) (e : ExtractOracle) (t : Nat) :
    ∀ (businesses : List (String × String)) (i : Nat),
      (processAux net e t i businesses).1
        = businesses.map (fun p => crawl_site net e p.2 p.1)
      ∧ (processAux net e t i businesses).2
        = (List.range businesses.length).map (fun k => (i + k + 1, t)) := by
  intro bs
  induction bs with
  | nil => intro i; exact ⟨rfl, rfl⟩
  | cons hd tl ih =>
    intro i
    obtain ⟨biz, url⟩ := hd
    refine ⟨?_, ?_⟩
    · show crawl_site net e url biz :: (processAux net e t (i + 1) tl).1 = _
      rw [(ih (i + 1)).1]
      rfl
    · show (i + 1, t) :: (processAux net e t (i + 1) tl).2 = _
      rw [(ih (i + 1)).2, List.length_cons, List.range_succ_eq_map, List.map_cons,
        List.map_map]
      congr 1
      apply List.map_congr_left
      intro k hk
      have hkk : i + 1 + k + 1 = i + Nat.succ k + 1 := by omega
      simp [Function.comp, hkk]

/-- C9: the orchestrator returns exactly one Crawl Result per input
target, in input order — each target's result computed independently of
any other target's outcome (in particular a transport failure on one
target leaves the rest processed) — and emits one progress event after
each target, in order. -/
theorem orchestrator_in_order (net : NetOracle) (e : ExtractOracle)
    (businesses : List (String × String)) :
    (process_websites net e businesses).1
      = businesses.map (fun p => crawl_site net e p.2 p.1)
    ∧ (process_websites net e businesses).2
      = (List.range businesses.length).map (fun k => (k + 1, businesses.length)) := by
  have h := processAux_spec net e businesses.length businesses 0
  unfold process_websites
  refine ⟨h.1, ?_⟩
  rw [h.2]
  apply List.map_congr_left
  intro k hk
  simp

/-! ## Claim C10 -/

/-- C10: the crawl loop always performs at least its first iteration —
the frontier is seeded with the root and the initial state passes every
guard — so every Crawl Result has at least one page crawled, whether or
not the root URL is valid or reachable. -/
theorem at_least_one_page (net : NetOracle) (e : ExtractOracle) (u n : String) :
    1 ≤ (crawl_site net e u n).pagesCrawled :=
  (crawlFinalState_status net e u).2

end SocialScraper
